import Mathlib

/-!
Verification of the `statusline` program (Go), focusing on its append-only
TTL cache store, its notification gateway, its git status classification and
diff-stat parsing, its path shortening, and its output composition.

Modelling conventions (shallow embedding):
* Go strings and file contents are modelled as `List Char` (one element per
  Unicode scalar value); `String` is used at API boundaries where the source
  uses `string` values (cache keys and payloads, paths).
* Go `time.Time` instants and `time.Duration` values are modelled as `Nat`
  nanosecond counts.  `time.Since(t)` is `now - t` (with `Nat` truncated
  subtraction, which agrees with the Go comparison `Since(t) <= TTL` for all
  inputs because a negative Go duration is also `<= TTL`).
* `encoding/json` marshalling of a `CacheEntry` is modelled by an explicit
  encoder mirroring Go's escaping rules (quote, backslash, `\n`, `\r`, `\t`
  as their two-character escapes; other control bytes, the HTML characters
  `<`, `>`, `&`, and U+2028/U+2029 as backslash-u escapes); the `time.Time` field,
  which Go renders as an RFC 3339 quoted string, is modelled as the decimal
  numeral of the nanosecond count (like RFC 3339 text it contains no quote,
  backslash, newline or other escaped character).  `json.Unmarshal` of a
  cache line is modelled by a parser for exactly the canonical shape the
  encoder emits (Go field order, no interstitial whitespace); surrogate
  `\uXXXX` escapes, which the encoder never produces, are rejected.
* File-system state is a value of type `Option (List Char)`: `none` is an
  absent cache file, `some content` its contents.  External effects (the
  GitHub fetch) are parameters of the functions that perform them.
-/

/-! ### Character utilities -/

/-- Model of the whitespace test used by Go's `strings.TrimSpace` (restricted
to the ASCII whitespace characters, which are the only ones relevant here):
space, tab, newline, vertical tab, form feed, carriage return. -/
def goIsSpace (c : Char) : Bool :=
  c = ' ' || c = '\t' || c = '\n' || c.toNat = 11 || c.toNat = 12 || c = '\r'

/-- Decimal digit test, as in Go's scanners. -/
def isDigitChar (c : Char) : Bool :=
  48 ≤ c.toNat && c.toNat ≤ 57

/-- Lower-case hexadecimal digit for `n < 16`, as in Go's
`encoding/json` hex table `"0123456789abcdef"`. -/
def hexDigitChar (n : Nat) : Char :=
  if n < 10 then Char.ofNat (48 + n) else Char.ofNat (87 + n)

/-- Value of a hexadecimal digit character, accepting both cases. -/
def hexVal (c : Char) : Option Nat :=
  if 48 ≤ c.toNat ∧ c.toNat ≤ 57 then some (c.toNat - 48)
  else if 97 ≤ c.toNat ∧ c.toNat ≤ 102 then some (c.toNat - 87)
  else if 65 ≤ c.toNat ∧ c.toNat ≤ 70 then some (c.toNat - 55)
  else none

/-- Numeric value of a list of decimal digit characters, most significant
first. -/
def digitsToNat (ds : List Char) : Nat :=
  ds.foldl (fun a c => 10 * a + (c.toNat - 48)) 0

/-- Decimal digit characters of `n`, most significant first, prepended to
`acc`.  Structural recursion on a fuel bound (any `fuel > n` is enough,
since `n` has at most `n + 1` digits); fuel exhaustion returns `acc`. -/
def natToCharsCore (fuel : Nat) (n : Nat) (acc : List Char) : List Char :=
  match fuel with
  | 0 => acc
  | fuel + 1 =>
    if n < 10 then hexDigitChar n :: acc
    else natToCharsCore fuel (n / 10) (hexDigitChar (n % 10) :: acc)

/-- Decimal numeral of `n` as a character list. -/
def natToChars (n : Nat) : List Char :=
  natToCharsCore (n + 1) n []

/-- Model of Go's `strings.TrimSpace` on a character list. -/
def trimChars (s : List Char) : List Char :=
  ((s.dropWhile goIsSpace).reverse.dropWhile goIsSpace).reverse

/-- One step of splitting a character stream into `\n`-separated lines,
consumed by `List.foldr`.  The accumulator is the list of lines of the
suffix already processed (never empty). -/
def splitLinesF (c : Char) (acc : List (List Char)) : List (List Char) :=
  if c = '\n' then [] :: acc
  else
    match acc with
    | [] => [[c]]
    | l :: ls => (c :: l) :: ls

/-- Lines of a character stream, splitting at `\n`.  This models the
sequence of tokens produced by `bufio.Scanner` with `ScanLines`, except that
a trailing newline here yields a final empty line and a `\r` before the
`\n` is kept; both differences are erased by the `TrimSpace` applied to
every line before use. -/
def splitLines (s : List Char) : List (List Char) :=
  s.foldr splitLinesF [[]]

/-- Consume an expected literal prefix, returning the rest of the input. -/
def stripLit : List Char → List Char → Option (List Char)
  | [], s => some s
  | _ :: _, [] => none
  | l :: ls, c :: cs => if l = c then stripLit ls cs else none

/-- Parse a decimal numeral at the head of the input (at least one digit). -/
def parseNatChars (s : List Char) : Option (Nat × List Char) :=
  let ds := s.takeWhile isDigitChar
  if ds = [] then none else some (digitsToNat ds, s.dropWhile isDigitChar)

/-! ### The JSON string codec used by the cache entries -/

/-- Model of Go `encoding/json` escaping of one character (with the default
HTML escaping that `json.Marshal` applies): quote, backslash, `\\n`, `\\r`,
`\\t` by two-character escapes; other control characters, and the HTML
characters `<`, `>`, `&`, and the separators U+2028/U+2029, by
backslash-u escapes; everything else is literal. -/
def escapeChar (c : Char) : List Char :=
  if c = '"' then ['\\', '"']
  else if c = '\\' then ['\\', '\\']
  else if c = '\n' then ['\\', 'n']
  else if c = '\r' then ['\\', 'r']
  else if c = '\t' then ['\\', 't']
  else if c.toNat < 32 ∨ c = '<' ∨ c = '>' ∨ c = '&' then
    ['\\', 'u', '0', '0', hexDigitChar (c.toNat / 16), hexDigitChar (c.toNat % 16)]
  else if c.toNat = 8232 ∨ c.toNat = 8233 then
    ['\\', 'u', '2', '0', '2', hexDigitChar (c.toNat % 16)]
  else [c]

/-- JSON escaping of a whole string body (without the surrounding quotes). -/
def escStr (s : List Char) : List Char :=
  (s.map escapeChar).flatten

/-- Prepend a decoded character to a string-body parse result. -/
def consOut (c : Char) (r : Option (List Char × List Char)) :
    Option (List Char × List Char) :=
  r.map (fun p => (c :: p.1, p.2))

/-- Parse a JSON string body up to and including the closing quote,
returning the decoded characters and the rest of the input.  Mirrors the
Go `encoding/json` string scanner: raw control characters are invalid, the
short escapes and `\uXXXX` are decoded; surrogate escapes are rejected
(the encoder never produces them; Go would substitute U+FFFD). -/
def parseStrBody : List Char → Option (List Char × List Char)
  | [] => none
  | c :: rest =>
    if c = '"' then some ([], rest)
    else if c = '\\' then
      match rest with
      | [] => none
      | e :: rest1 =>
        if e = '"' ∨ e = '\\' ∨ e = '/' then consOut e (parseStrBody rest1)
        else if e = 'b' then consOut (Char.ofNat 8) (parseStrBody rest1)
        else if e = 'f' then consOut (Char.ofNat 12) (parseStrBody rest1)
        else if e = 'n' then consOut '\n' (parseStrBody rest1)
        else if e = 'r' then consOut '\r' (parseStrBody rest1)
        else if e = 't' then consOut '\t' (parseStrBody rest1)
        else if e = 'u' then
          match rest1 with
          | h1 :: h2 :: h3 :: h4 :: rest2 =>
            match hexVal h1, hexVal h2, hexVal h3, hexVal h4 with
            | some a, some b, some c3, some d =>
              let n := ((a * 16 + b) * 16 + c3) * 16 + d
              if 55296 ≤ n ∧ n < 57344 then none
              else consOut (Char.ofNat n) (parseStrBody rest2)
            | _, _, _, _ => none
          | _ => none
        else none
    else if c.toNat < 32 then none
    else consOut c (parseStrBody rest)

/-! ### Cache entries and their line format -/

/-- Model of the source `CacheEntry` struct: `Timestamp time.Time`,
`Key string`, `Content string`, with JSON tags `timestamp`, `key`,
`content`.  The instant is a nanosecond count. -/
structure CacheEntry where
  timestamp : Nat
  key : String
  content : String
deriving DecidableEq, Repr

/-- Literal opening a marshalled entry: a brace and the first field name. -/
def jsonTsLit : List Char :=
  '\x7b' :: "\"timestamp\":".data

/-- Literal between the timestamp value and the key value. -/
def jsonKeyLit : List Char :=
  ',' :: "\"key\":\"".data

/-- Literal between the key value and the content value. -/
def jsonContentLit : List Char :=
  ',' :: "\"content\":\"".data

/-- Model of `json.Marshal` on a `CacheEntry` (see the file header for the
timestamp convention): one line of the cache file, without the newline. -/
def marshalEntryChars (e : CacheEntry) : List Char :=
  jsonTsLit ++ natToChars e.timestamp ++ jsonKeyLit ++ escStr e.key.data
    ++ '"' :: (jsonContentLit ++ escStr e.content.data ++ ['"', '\x7d'])

/-- Model of `json.Unmarshal` into a `CacheEntry`, restricted to the
canonical shape `marshalEntryChars` emits (Go field order, no interstitial
whitespace); anything else is a malformed line. -/
def parseCacheLineChars (s : List Char) : Option CacheEntry :=
  (stripLit jsonTsLit s).bind (fun r1 =>
  (parseNatChars r1).bind (fun p =>
  (stripLit jsonKeyLit p.2).bind (fun r3 =>
  (parseStrBody r3).bind (fun q =>
  (stripLit jsonContentLit q.2).bind (fun r5 =>
  (parseStrBody r5).bind (fun w =>
  if w.2 = ['\x7d'] then some ⟨p.1, String.mk q.1, String.mk w.1⟩ else none))))))

/-! ### The cache store -/

/-- Effect of one scanner iteration of `Cache.getLatestEntry` on a line:
trim it, skip it when blank or unparsable, otherwise the parsed entry. -/
def lineToEntry (line : List Char) : Option CacheEntry :=
  let t := trimChars line
  if t = [] then none else parseCacheLineChars t

/-- Model of `Cache.getLatestEntry`: open the file (absent file is a miss),
scan all lines from the start, and keep the last entry whose key matches. -/
def getLatestEntry (file : Option (List Char)) (key : String) :
    Option CacheEntry :=
  match file with
  | none => none
  | some content =>
    (splitLines content).foldl
      (fun acc line =>
        match lineToEntry line with
        | none => acc
        | some entry => if entry.key = key then some entry else acc)
      none

/-- All well-formed entries of a cache file, in file order. -/
def entriesOf (file : Option (List Char)) : List CacheEntry :=
  match file with
  | none => []
  | some content => (splitLines content).filterMap lineToEntry

/-- Model of `Cache.isValid`: `time.Since(entry.Timestamp) <= c.TTL`. -/
def isValidEntry (ttl now : Nat) (e : CacheEntry) : Bool :=
  now - e.timestamp ≤ ttl

/-- Model of `Cache.Get`: the latest matching entry, if still within the
TTL; `("", false)` otherwise. -/
def cacheGet (ttl now : Nat) (file : Option (List Char)) (key : String) :
    String × Bool :=
  match getLatestEntry file key with
  | none => ("", false)
  | some e => if isValidEntry ttl now e then (e.content, true) else ("", false)

/-- Model of `Cache.appendEntry`: append the marshalled entry and a newline
to the file, creating it when absent. -/
def appendEntry (file : Option (List Char)) (e : CacheEntry) : List Char :=
  file.getD [] ++ marshalEntryChars e ++ ['\n']

/-- Model of `Cache.Set`: append an entry stamped with the current time. -/
def cacheSet (now : Nat) (file : Option (List Char)) (key content : String) :
    List Char :=
  appendEntry file ⟨now, key, content⟩

/-- A cache file is newline terminated when it is absent, empty, or its
last character is a newline.  Every file produced by `cacheSet` is; the
single-writer store only ever sees such files. -/
def NewlineTerminated (file : Option (List Char)) : Prop :=
  match file with
  | none => True
  | some content => content = [] ∨ content.getLast? = some '\n'

/-- Rebuild a cache file keeping only the lines that parse as entries
(each re-terminated by a newline). -/
def rebuildWellFormed (content : List Char) : List Char :=
  (((splitLines content).filter (fun l => (lineToEntry l).isSome)).map
    (fun l => l ++ ['\n'])).flatten

/-! ### The notification gateway -/

/-- Model of the source `Notification` struct (fields are opaque payload
for this development; only the count of items matters). -/
structure Notification where
  id : String
  reason : String
  subjectTitle : String
  subjectURL : String
  subjectType : String
  repositoryFullName : String
  unread : Bool

/-- The gateway's fixed cache TTL: `5 * time.Minute` in nanoseconds. -/
def notificationTTL : Nat := 300000000000

/-- The gateway's fixed cache key. -/
def githubCacheKey : String := "github_notifications"

/-- Model of `json.Unmarshal` of a cached payload into an `int`: an
optional minus sign and a canonical decimal numeral (no leading zero
except for `0` itself, nothing but digits). -/
def parseIntJSON (s : List Char) : Option Int :=
  match s with
  | '-' :: rest =>
    (parseNatCanon rest).map (fun n => -(n : Int))
  | _ => (parseNatCanon s).map (fun n => (n : Int))
  where parseNatCanon (ds : List Char) : Option Nat :=
    if ds = [] then none
    else if ds.all isDigitChar = false then none
    else if 1 < ds.length ∧ ds.head? = some '0' then none
    else some (digitsToNat ds)

/-- Model of `getNotificationCount`.  Parameters replace the process
environment: `token` is `envVars["GITHUB_TOKEN"]` (empty when not
configured), `now` the current instant, `file` the cache file contents,
and `fetch` the outcome of the external GitHub fetch collaborator
(`none` is a failure of any kind: auth, network, non-2xx, malformed
payload).  The result pairs the returned count with the cache file as
left after the call.  The user home directory lookup, which cannot fail
in this model, is elided. -/
def getNotificationCount (token : String) (now : Nat)
    (file : Option (List Char)) (fetch : Option (List Notification)) :
    Int × Option (List Char) :=
  if token = "" then (-1, file)
  else
    let hit := cacheGet notificationTTL now file githubCacheKey
    let cachedCount := if hit.2 then parseIntJSON hit.1.data else none
    match cachedCount with
    | some n => (n, file)
    | none =>
      match fetch with
      | none => (-1, file)
      | some notifications =>
        let count := notifications.length
        ((count : Int),
          some (cacheSet now file githubCacheKey (String.mk (natToChars count))))

/-! ### The git status classifier -/

/-- Counters accumulated by `getGitStatus` over the porcelain listing. -/
structure GitCounts where
  stagedAdded : Nat
  stagedModified : Nat
  stagedDeleted : Nat
  unstagedAdded : Nat
  unstagedModified : Nat
  unstagedDeleted : Nat
deriving DecidableEq, Repr

/-- The all-zero counters. -/
def zeroCounts : GitCounts := ⟨0, 0, 0, 0, 0, 0⟩

/-- Componentwise sum of counters. -/
def addCounts (a b : GitCounts) : GitCounts :=
  ⟨a.stagedAdded + b.stagedAdded, a.stagedModified + b.stagedModified,
   a.stagedDeleted + b.stagedDeleted, a.unstagedAdded + b.unstagedAdded,
   a.unstagedModified + b.unstagedModified, a.unstagedDeleted + b.unstagedDeleted⟩

/-- Model of one iteration of the `getGitStatus` classification loop on a
porcelain status line: lines shorter than two characters are skipped;
otherwise the stage column (first character) and worktree column (second
character) update the counters as in the source's two guarded switches
and the untracked (`??`) rule. -/
def classifyStatusLine (c : GitCounts) (line : List Char) : GitCounts :=
  match line with
  | s :: w :: _ =>
    let c1 :=
      if s ≠ ' ' ∧ s ≠ '?' then
        if s = 'A' then { c with stagedAdded := c.stagedAdded + 1 }
        else if s = 'D' then { c with stagedDeleted := c.stagedDeleted + 1 }
        else if s = 'M' ∨ s = 'R' ∨ s = 'C' then
          { c with stagedModified := c.stagedModified + 1 }
        else c
      else c
    let c2 :=
      if w ≠ ' ' ∧ w ≠ '?' then
        if w = 'M' then { c1 with unstagedModified := c1.unstagedModified + 1 }
        else if w = 'D' then { c1 with unstagedDeleted := c1.unstagedDeleted + 1 }
        else c1
      else c1
    if s = '?' ∧ w = '?' then { c2 with unstagedAdded := c2.unstagedAdded + 1 }
    else c2
  | _ => c

/-- Counters over a whole porcelain listing. -/
def classifyStatusLines (lines : List (List Char)) : GitCounts :=
  lines.foldl classifyStatusLine zeroCounts

/-- Specification-side contribution of the stage column of one line, per
the spec's classification table. -/
def stageDelta (s : Char) : GitCounts :=
  if s = 'A' then ⟨1, 0, 0, 0, 0, 0⟩
  else if s = 'D' then ⟨0, 0, 1, 0, 0, 0⟩
  else if s = 'M' ∨ s = 'R' ∨ s = 'C' then ⟨0, 1, 0, 0, 0, 0⟩
  else zeroCounts

/-- Specification-side contribution of the worktree column of one line. -/
def workDelta (w : Char) : GitCounts :=
  if w = 'M' then ⟨0, 0, 0, 0, 1, 0⟩
  else if w = 'D' then ⟨0, 0, 0, 0, 0, 1⟩
  else zeroCounts

/-- Specification-side contribution of the untracked (`??`) rule. -/
def untrackedDelta (s w : Char) : GitCounts :=
  if s = '?' ∧ w = '?' then ⟨0, 0, 0, 1, 0, 0⟩ else zeroCounts

/-- Specification-side total contribution of one porcelain line. -/
def lineDelta (line : List Char) : GitCounts :=
  match line with
  | s :: w :: _ => addCounts (addCounts (stageDelta s) (workDelta w)) (untrackedDelta s w)
  | _ => zeroCounts

/-! ### The diff-stat summary-line parse -/

/-- Result of parsing a `--shortstat` summary line. -/
structure DiffStat where
  filesChanged : Int
  insertions : Int
  deletions : Int
deriving DecidableEq, Repr

/-- Substring test, as Go's `strings.Contains`. -/
def containsSeq (needle : List Char) : List Char → Bool
  | [] => needle.isEmpty
  | c :: rest => needle.isPrefixOf (c :: rest) || containsSeq needle rest

/-- Split at every `", "`, as Go's `strings.Split(s, ", ")` (leftmost,
non-overlapping).  The first argument accumulates the current piece in
reverse. -/
def splitCommaSpace (cur : List Char) : List Char → List (List Char)
  | ',' :: ' ' :: rest => cur.reverse :: splitCommaSpace [] rest
  | c :: rest => splitCommaSpace (c :: cur) rest
  | [] => [cur.reverse]

/-- Digits at the head of the input, as a number (none when no digit). -/
def scanDigits (s : List Char) : Option Nat :=
  let ds := s.takeWhile isDigitChar
  if ds = [] then none else some (digitsToNat ds)

/-- Model of `fmt.Sscanf(s, "%d ...", &x)`'s effect on `x`: skip leading
whitespace, then an optional sign and at least one digit; on failure the
scanned variable keeps its previous value (the caller's default). -/
def scanIntD (s : List Char) : Option Int :=
  let s1 := s.dropWhile goIsSpace
  match s1 with
  | '-' :: rest => (scanDigits rest).map (fun n => -(n : Int))
  | '+' :: rest => (scanDigits rest).map (fun n => (n : Int))
  | _ => (scanDigits s1).map (fun n => (n : Int))

/-- Model of the parsing portion of `getGitDiffStat` (after the subprocess
output has been trimmed): the three guarded clause scans over the
shortstat line. -/
def parseShortstat (statLine : List Char) : DiffStat :=
  let filesChanged :=
    if containsSeq "file".data statLine then (scanIntD statLine).getD 0 else 0
  let insertions :=
    if containsSeq "insertion".data statLine then
      (splitCommaSpace [] statLine).foldl
        (fun acc part =>
          if containsSeq "insertion".data part then (scanIntD part).getD acc else acc)
        0
    else 0
  let deletions :=
    if containsSeq "deletion".data statLine then
      (splitCommaSpace [] statLine).foldl
        (fun acc part =>
          if containsSeq "deletion".data part then (scanIntD part).getD acc else acc)
        0
    else 0
  ⟨filesChanged, insertions, deletions⟩

/-! ### Output composition (the `main` templates) -/

/-- The ANSI reset sequence. -/
def ansiReset : List Char := "\x1b[0m".data

/-- A branch name as `main` colors it (cyan). -/
def cyanSeg (s : List Char) : List Char := "\x1b[36m".data ++ s ++ ansiReset

/-- A path as `main` colors it (magenta). -/
def magentaSeg (s : List Char) : List Char := "\x1b[35m".data ++ s ++ ansiReset

/-- Decimal rendering of an `int`, as `fmt.Sprintf("%d", i)`. -/
def intToChars (i : Int) : List Char :=
  if i < 0 then '-' :: natToChars i.natAbs else natToChars i.toNat

/-- The notification badge: rendered only when the configuration flag is
on and the count is positive (red, with a bell). -/
def notiBadge (showNoti : Bool) (count : Int) : List Char :=
  if showNoti ∧ 0 < count then " \x1b[31m🔔".data ++ intToChars count ++ ansiReset
  else []

/-- One colored counter piece, e.g. green `+n`. -/
def countPart (pre : String) (n : Nat) : List Char :=
  pre.data ++ natToChars n ++ ansiReset

/-- Whether any staged counter is positive. -/
def hasStaged (c : GitCounts) : Bool :=
  0 < c.stagedAdded || 0 < c.stagedModified || 0 < c.stagedDeleted

/-- Whether any unstaged counter is positive. -/
def hasUnstaged (c : GitCounts) : Bool :=
  0 < c.unstagedAdded || 0 < c.unstagedModified || 0 < c.unstagedDeleted

/-- The staged summary text of `getGitStatus`: the positive staged
counters (green `+`, yellow `~`, red `-`) concatenated, then the staged
diff stat when nonempty. -/
def formatStagedText (c : GitCounts) (sStats : List Char) : List Char :=
  let parts : List (List Char) :=
    (if 0 < c.stagedAdded then [countPart "\x1b[32m+" c.stagedAdded] else [])
      ++ (if 0 < c.stagedModified then [countPart "\x1b[33m~" c.stagedModified] else [])
      ++ (if 0 < c.stagedDeleted then [countPart "\x1b[31m-" c.stagedDeleted] else [])
  let txt := parts.flatten
  if sStats ≠ [] then txt ++ sStats else txt

/-- The unstaged summary text of `getGitStatus` (bright green/yellow/red),
then the unstaged diff stat when nonempty. -/
def formatUnstagedText (c : GitCounts) (uStats : List Char) : List Char :=
  let parts : List (List Char) :=
    (if 0 < c.unstagedAdded then [countPart "\x1b[92m+" c.unstagedAdded] else [])
      ++ (if 0 < c.unstagedModified then [countPart "\x1b[93m~" c.unstagedModified] else [])
      ++ (if 0 < c.unstagedDeleted then [countPart "\x1b[91m-" c.unstagedDeleted] else [])
  let txt := parts.flatten
  if uStats ≠ [] then txt ++ uStats else txt

/-- The status blob `getGitStatus` returns: a leading space and the
present summaries joined by a space; empty when nothing is present. -/
def formatGitStatus (c : GitCounts) (sStats uStats : List Char) : List Char :=
  let sp := if hasStaged c then [formatStagedText c sStats] else []
  let up := if hasUnstaged c then [formatUnstagedText c uStats] else []
  let parts := sp ++ up
  if parts = [] then [] else ' ' :: List.intercalate [' '] parts

/-- Model of the output composition in `main`: the three `fmt.Sprintf`
templates, chosen by whether a branch and a status blob are present. -/
def renderStatusLine (gitBranch gitStatus noti pwd : List Char) : List Char :=
  if gitBranch ≠ [] then
    if gitStatus ≠ [] then
      cyanSeg gitBranch ++ gitStatus ++ noti ++ ' ' :: magentaSeg pwd
    else
      cyanSeg gitBranch ++ noti ++ ' ' :: magentaSeg pwd
  else
    noti ++ magentaSeg pwd

/-- The whole rendered line from the classifier outputs and the badge
inputs. -/
def renderMain (branch : List Char) (c : GitCounts) (sStats uStats : List Char)
    (showNoti : Bool) (count : Int) (pwd : List Char) : List Char :=
  renderStatusLine branch (formatGitStatus c sStats uStats)
    (notiBadge showNoti count) pwd

/-- The branch segment (cyan), empty when no branch. -/
def segBranch (branch : List Char) : List Char :=
  if branch = [] then [] else cyanSeg branch

/-- The staged summary as a standalone segment with its separating space. -/
def segStaged (c : GitCounts) (sStats : List Char) : List Char :=
  if hasStaged c then ' ' :: formatStagedText c sStats else []

/-- The unstaged summary as a standalone segment with its separating
space. -/
def segUnstaged (c : GitCounts) (uStats : List Char) : List Char :=
  if hasUnstaged c then ' ' :: formatUnstagedText c uStats else []

/-- Composition in the order the spec claims: notification badge first,
then branch, staged summary, unstaged summary, path (absent segments
empty). -/
def claimOrderCompose (branch : List Char) (c : GitCounts)
    (sStats uStats : List Char) (showNoti : Bool) (count : Int)
    (pwd : List Char) : List Char :=
  List.flatten [notiBadge showNoti count, segBranch branch, segStaged c sStats,
    segUnstaged c uStats, if branch = [] then [] else [' '], magentaSeg pwd]

/-- Composition in the order the code produces: branch, staged summary,
unstaged summary, notification badge, path; the summaries and the space
before the path appear only when a branch is present. -/
def codeOrderCompose (branch : List Char) (c : GitCounts)
    (sStats uStats : List Char) (showNoti : Bool) (count : Int)
    (pwd : List Char) : List Char :=
  List.flatten [segBranch branch,
    if branch = [] then [] else segStaged c sStats,
    if branch = [] then [] else segUnstaged c uStats,
    notiBadge showNoti count,
    if branch = [] then [] else [' '],
    magentaSeg pwd]

/-! ### Path shortening -/

/-- Go's `strings.HasPrefix`, at character level. -/
def hasPfx (p s : String) : Bool := p.data.isPrefixOf s.data

/-- Go's `strings.TrimPrefix`, at character level. -/
def dropPfx (s p : String) : String :=
  if hasPfx p s then String.mk (s.data.drop p.data.length) else s

/-- Model of `shortenPath`: substitute `~` for the home directory when the
current directory lies strictly under it, then (independently) replace the
whole shortening by the path relative to the project directory when the
current directory lies strictly under a set, non-`"null"` project
directory. -/
def shortenPath (currentDir homeDir projectDir : String) : String :=
  let pwdShort :=
    if currentDir ≠ homeDir ∧ hasPfx (homeDir ++ "/") currentDir then
      "~" ++ dropPfx currentDir homeDir
    else currentDir
  if currentDir ≠ projectDir ∧ projectDir ≠ "null" ∧ projectDir ≠ ""
      ∧ hasPfx (projectDir ++ "/") currentDir then
    dropPfx currentDir (projectDir ++ "/")
  else pwdShort

/-- The home-abbreviation rule alone (first half of `shortenPath`). -/
def homeShorten (currentDir homeDir : String) : String :=
  if currentDir ≠ homeDir ∧ hasPfx (homeDir ++ "/") currentDir then
    "~" ++ dropPfx currentDir homeDir
  else currentDir

/-- Reference value of pushing the decimal digits of `n` after an
accumulated value `a` (proof-side companion of `natToCharsCore`). -/
def pushDigits (a n : Nat) : Nat :=
  if n < 10 then 10 * a + n
  else 10 * pushDigits a (n / 10) + n % 10
  termination_by n
  decreasing_by exact Nat.div_lt_self (by omega) (by omega)

def escDispatch (x : Char) : Option Char :=
  if x = '"' ∨ x = '\\' ∨ x = '/' then some x
  else if x = 'b' then some (Char.ofNat 8)
  else if x = 'f' then some (Char.ofNat 12)
  else if x = 'n' then some '\n'
  else if x = 'r' then some '\r'
  else if x = 't' then some '\t'
  else none

/-! ### Lemmas: decimal numerals -/

theorem hexVal_hexDigitChar : ∀ m, m < 16 → hexVal (hexDigitChar m) = some m := by
  decide

theorem toNat_hexDigitChar_sub : ∀ m, m < 10 → (hexDigitChar m).toNat - 48 = m := by
  decide

theorem isDigitChar_hexDigitChar : ∀ m, m < 10 → isDigitChar (hexDigitChar m) = true := by
  decide

theorem pushDigits_zero (n : Nat) : pushDigits 0 n = n := by
  induction n using Nat.strong_induction_on with
  | _ n ih =>
    rw [pushDigits]
    by_cases h : n < 10
    · simp [h]
    · rw [if_neg h, ih (n / 10) (Nat.div_lt_self (by omega) (by omega))]
      omega

theorem foldl_natToCharsCore (fuel : Nat) :
    ∀ n acc a, n < fuel →
      (natToCharsCore fuel n acc).foldl (fun a c => 10 * a + (c.toNat - 48)) a
        = acc.foldl (fun a c => 10 * a + (c.toNat - 48)) (pushDigits a n) := by
  induction fuel with
  | zero => intro n acc a h; omega
  | succ fuel ih =>
    intro n acc a h
    rw [natToCharsCore, pushDigits]
    by_cases h10 : n < 10
    · simp only [if_pos h10, List.foldl_cons, toNat_hexDigitChar_sub n h10]
    · rw [if_neg h10, if_neg h10,
        ih (n / 10) _ a (by omega)]
      simp only [List.foldl_cons, toNat_hexDigitChar_sub (n % 10) (by omega)]

theorem digitsToNat_natToChars (n : Nat) : digitsToNat (natToChars n) = n := by
  have h := foldl_natToCharsCore (n + 1) n [] 0 (by omega)
  simpa [digitsToNat, natToChars, pushDigits_zero] using h

theorem natToCharsCore_all_digits (fuel : Nat) :
    ∀ n acc, (∀ c ∈ acc, isDigitChar c = true) →
      ∀ c ∈ natToCharsCore fuel n acc, isDigitChar c = true := by
  induction fuel with
  | zero => intro n acc hacc; exact hacc
  | succ fuel ih =>
    intro n acc hacc c hc
    rw [natToCharsCore] at hc
    by_cases h10 : n < 10
    · rw [if_pos h10] at hc
      rcases List.mem_cons.mp hc with h | h
      · subst h; exact isDigitChar_hexDigitChar n h10
      · exact hacc c h
    · rw [if_neg h10] at hc
      refine ih (n / 10) _ ?_ c hc
      intro d hd
      rcases List.mem_cons.mp hd with h | h
      · subst h; exact isDigitChar_hexDigitChar (n % 10) (by omega)
      · exact hacc d h

theorem natToChars_all_digits (n : Nat) :
    ∀ c ∈ natToChars n, isDigitChar c = true :=
  natToCharsCore_all_digits (n + 1) n [] (by simp)

theorem natToCharsCore_ne_nil (fuel : Nat) :
    ∀ n acc, n < fuel → natToCharsCore fuel n acc ≠ [] := by
  induction fuel with
  | zero => intro n acc h; omega
  | succ fuel ih =>
    intro n acc h
    rw [natToCharsCore]
    by_cases h10 : n < 10
    · simp [h10]
    · rw [if_neg h10]
      exact ih (n / 10) _ (by omega)

theorem natToChars_ne_nil (n : Nat) : natToChars n ≠ [] :=
  natToCharsCore_ne_nil (n + 1) n [] (by omega)

/-! ### Lemmas: prefix scanning -/

theorem takeWhile_append_all {p : Char → Bool} :
    ∀ {l1 l2 : List Char}, (∀ c ∈ l1, p c = true) →
      (l1 ++ l2).takeWhile p = l1 ++ l2.takeWhile p := by
  intro l1
  induction l1 with
  | nil => intro l2 _; simp
  | cons c cs ih =>
    intro l2 h
    have hc : p c = true := h c (by simp)
    simp [List.takeWhile_cons, hc, ih (fun d hd => h d (by simp [hd]))]

theorem dropWhile_append_all {p : Char → Bool} :
    ∀ {l1 l2 : List Char}, (∀ c ∈ l1, p c = true) →
      (l1 ++ l2).dropWhile p = l2.dropWhile p := by
  intro l1
  induction l1 with
  | nil => intro l2 _; simp
  | cons c cs ih =>
    intro l2 h
    have hc : p c = true := h c (by simp)
    simp [List.dropWhile_cons, hc, ih (fun d hd => h d (by simp [hd]))]

theorem stripLit_append : ∀ (lit r : List Char), stripLit lit (lit ++ r) = some r := by
  intro lit
  induction lit with
  | nil => intro r; rfl
  | cons l ls ih => intro r; simp [stripLit, ih]

theorem parseNatChars_natToChars (n : Nat) (c0 : Char) (r : List Char)
    (h : isDigitChar c0 = false) :
    parseNatChars (natToChars n ++ c0 :: r) = some (n, c0 :: r) := by
  have hall := natToChars_all_digits n
  have htw : (natToChars n ++ c0 :: r).takeWhile isDigitChar = natToChars n := by
    rw [takeWhile_append_all hall]
    simp [List.takeWhile_cons, h]
  have hdw : (natToChars n ++ c0 :: r).dropWhile isDigitChar = c0 :: r := by
    rw [dropWhile_append_all hall]
    simp [List.dropWhile_cons, h]
  simp [parseNatChars, htw, hdw, natToChars_ne_nil, digitsToNat_natToChars]

/-! ### Lemmas: the JSON string codec round-trip -/

theorem parseStrBody_u00 (d1 d2 : Char) (r : List Char) (m1 m2 : Nat)
    (hd1 : hexVal d1 = some m1) (hd2 : hexVal d2 = some m2)
    (hm : m1 * 16 + m2 < 55296) :
    parseStrBody ('\\' :: 'u' :: '0' :: '0' :: d1 :: d2 :: r)
      = consOut (Char.ofNat (m1 * 16 + m2)) (parseStrBody r) := by
  have h0 : hexVal '0' = some 0 := by decide
  have e1 : ¬ (('\\' : Char) = '"') := by decide
  have e2 : ¬ (('u' : Char) = '"' ∨ ('u' : Char) = '\\' ∨ ('u' : Char) = '/') := by decide
  have e3 : ¬ (('u' : Char) = 'b') := by decide
  have e4 : ¬ (('u' : Char) = 'f') := by decide
  have e5 : ¬ (('u' : Char) = 'n') := by decide
  have e6 : ¬ (('u' : Char) = 'r') := by decide
  have e7 : ¬ (('u' : Char) = 't') := by decide
  rw [parseStrBody.eq_def]
  simp only [h0, hd1, hd2, e1, e2, e3, e4, e5, e6, e7, if_false, ite_false,
    eq_self_iff_true, if_true, ite_true, reduceIte]
  have harith : ((0 * 16 + 0) * 16 + m1) * 16 + m2 = m1 * 16 + m2 := by ring
  rw [harith, if_neg (by omega)]

theorem parseStrBody_u202 (d : Char) (r : List Char) (m : Nat)
    (hd : hexVal d = some m) (hm : 8224 + m < 55296) :
    parseStrBody ('\\' :: 'u' :: '2' :: '0' :: '2' :: d :: r)
      = consOut (Char.ofNat (8224 + m)) (parseStrBody r) := by
  have h2v : hexVal '2' = some 2 := by decide
  have h0 : hexVal '0' = some 0 := by decide
  have e1 : ¬ (('\\' : Char) = '"') := by decide
  have e2 : ¬ (('u' : Char) = '"' ∨ ('u' : Char) = '\\' ∨ ('u' : Char) = '/') := by decide
  have e3 : ¬ (('u' : Char) = 'b') := by decide
  have e4 : ¬ (('u' : Char) = 'f') := by decide
  have e5 : ¬ (('u' : Char) = 'n') := by decide
  have e6 : ¬ (('u' : Char) = 'r') := by decide
  have e7 : ¬ (('u' : Char) = 't') := by decide
  rw [parseStrBody.eq_def]
  simp only [h2v, h0, hd, e1, e2, e3, e4, e5, e6, e7, if_false, ite_false,
    eq_self_iff_true, if_true, ite_true, reduceIte]
  have harith : ((2 * 16 + 0) * 16 + 2) * 16 + m = 8224 + m := by ring
  rw [harith, if_neg (by omega)]

theorem parseStrBody_esc2 (x out : Char) (r : List Char)
    (hd : escDispatch x = some out) :
    parseStrBody ('\\' :: x :: r) = consOut out (parseStrBody r) := by
  have e1 : ¬ (('\\' : Char) = '"') := by decide
  rw [parseStrBody.eq_def]
  unfold escDispatch at hd
  by_cases hc1 : x = '"' ∨ x = '\\' ∨ x = '/'
  · rw [if_pos hc1] at hd
    injection hd with h
    subst h
    simp only [e1, hc1, eq_self_iff_true, if_true, ite_true, if_false, ite_false, reduceIte]
  rw [if_neg hc1] at hd
  by_cases hc2 : x = 'b'
  · rw [if_pos hc2] at hd
    injection hd with h
    subst h
    simp only [e1, hc1, hc2, eq_self_iff_true, if_true, ite_true, if_false, ite_false, reduceIte]
    rw [if_neg (by decide : ¬ (('b' : Char) = '"' ∨ ('b' : Char) = '\\' ∨ ('b' : Char) = '/'))]
  rw [if_neg hc2] at hd
  by_cases hc3 : x = 'f'
  · rw [if_pos hc3] at hd
    injection hd with h
    subst h
    simp only [e1, hc1, hc2, hc3, eq_self_iff_true, if_true, ite_true, if_false, ite_false,
      reduceIte]
    rw [if_neg (by decide : ¬ (('f' : Char) = '"' ∨ ('f' : Char) = '\\' ∨ ('f' : Char) = '/')),
      if_neg (by decide : ¬ (('f' : Char) = 'b'))]
  rw [if_neg hc3] at hd
  by_cases hc4 : x = 'n'
  · rw [if_pos hc4] at hd
    injection hd with h
    subst h
    simp only [e1, hc1, hc2, hc3, hc4, eq_self_iff_true, if_true, ite_true, if_false, ite_false,
      reduceIte]
    rw [if_neg (by decide : ¬ (('n' : Char) = '"' ∨ ('n' : Char) = '\\' ∨ ('n' : Char) = '/')),
      if_neg (by decide : ¬ (('n' : Char) = 'b')), if_neg (by decide : ¬ (('n' : Char) = 'f'))]
  rw [if_neg hc4] at hd
  by_cases hc5 : x = 'r'
  · rw [if_pos hc5] at hd
    injection hd with h
    subst h
    simp only [e1, hc1, hc2, hc3, hc4, hc5, eq_self_iff_true, if_true, ite_true, if_false,
      ite_false, reduceIte]
    rw [if_neg (by decide : ¬ (('r' : Char) = '"' ∨ ('r' : Char) = '\\' ∨ ('r' : Char) = '/')),
      if_neg (by decide : ¬ (('r' : Char) = 'b')), if_neg (by decide : ¬ (('r' : Char) = 'f')),
      if_neg (by decide : ¬ (('r' : Char) = 'n'))]
  rw [if_neg hc5] at hd
  by_cases hc6 : x = 't'
  · rw [if_pos hc6] at hd
    injection hd with h
    subst h
    simp only [e1, hc1, hc2, hc3, hc4, hc5, hc6, eq_self_iff_true, if_true, ite_true, if_false,
      ite_false, reduceIte]
    rw [if_neg (by decide : ¬ (('t' : Char) = '"' ∨ ('t' : Char) = '\\' ∨ ('t' : Char) = '/')),
      if_neg (by decide : ¬ (('t' : Char) = 'b')), if_neg (by decide : ¬ (('t' : Char) = 'f')),
      if_neg (by decide : ¬ (('t' : Char) = 'n')), if_neg (by decide : ¬ (('t' : Char) = 'r'))]
  rw [if_neg hc6] at hd
  cases hd

theorem parseStrBody_lit (c : Char) (r : List Char) (h1 : ¬ c = '"')
    (h2 : ¬ c = '\\') (h3 : ¬ c.toNat < 32) :
    parseStrBody (c :: r) = consOut c (parseStrBody r) := by
  rw [parseStrBody.eq_def]
  simp only [h1, h2, h3, if_false, ite_false, reduceIte]

theorem parseStrBody_escapeChar (c : Char) (r : List Char) :
    parseStrBody (escapeChar c ++ r) = consOut c (parseStrBody r) := by
  by_cases h1 : c = '"'
  · subst h1
    have hcons : escapeChar '"' ++ r = '\\' :: '"' :: r := by
      have hesc : escapeChar '"' = ['\\', '"'] := by decide
      simp [hesc]
    rw [hcons, parseStrBody_esc2 '"' '"' r (by decide)]
  by_cases h2 : c = '\\'
  · subst h2
    have hcons : escapeChar '\\' ++ r = '\\' :: '\\' :: r := by
      have hesc : escapeChar '\\' = ['\\', '\\'] := by decide
      simp [hesc]
    rw [hcons, parseStrBody_esc2 '\\' '\\' r (by decide)]
  by_cases h3 : c = '\n'
  · subst h3
    have hcons : escapeChar '\n' ++ r = '\\' :: 'n' :: r := by
      have hesc : escapeChar '\n' = ['\\', 'n'] := by decide
      simp [hesc]
    rw [hcons, parseStrBody_esc2 'n' '\n' r (by decide)]
  by_cases h4 : c = '\r'
  · subst h4
    have hcons : escapeChar '\r' ++ r = '\\' :: 'r' :: r := by
      have hesc : escapeChar '\r' = ['\\', 'r'] := by decide
      simp [hesc]
    rw [hcons, parseStrBody_esc2 'r' '\r' r (by decide)]
  by_cases h5 : c = '\t'
  · subst h5
    have hcons : escapeChar '\t' ++ r = '\\' :: 't' :: r := by
      have hesc : escapeChar '\t' = ['\\', 't'] := by decide
      simp [hesc]
    rw [hcons, parseStrBody_esc2 't' '\t' r (by decide)]
  by_cases h6 : c.toNat < 32 ∨ c = '<' ∨ c = '>' ∨ c = '&'
  · have hlt : c.toNat < 256 := by
      rcases h6 with h | h | h | h
      · omega
      · subst h; decide
      · subst h; decide
      · subst h; decide
    have hcons : escapeChar c ++ r = '\\' :: 'u' :: '0' :: '0'
        :: hexDigitChar (c.toNat / 16) :: hexDigitChar (c.toNat % 16) :: r := by
      have hesc : escapeChar c = ['\\', 'u', '0', '0',
          hexDigitChar (c.toNat / 16), hexDigitChar (c.toNat % 16)] := by
        simp [escapeChar, h1, h2, h3, h4, h5, h6]
      simp [hesc]
    rw [hcons, parseStrBody_u00 _ _ r (c.toNat / 16) (c.toNat % 16)
      (hexVal_hexDigitChar _ (by omega)) (hexVal_hexDigitChar _ (by omega)) (by omega)]
    have harith : c.toNat / 16 * 16 + c.toNat % 16 = c.toNat := by omega
    rw [harith, Char.ofNat_toNat]
  by_cases h7 : c.toNat = 8232 ∨ c.toNat = 8233
  · have hcons : escapeChar c ++ r
        = '\\' :: 'u' :: '2' :: '0' :: '2' :: hexDigitChar (c.toNat % 16) :: r := by
      have hesc : escapeChar c = ['\\', 'u', '2', '0', '2', hexDigitChar (c.toNat % 16)] := by
        simp [escapeChar, h1, h2, h3, h4, h5, h6, h7]
      simp [hesc]
    rw [hcons, parseStrBody_u202 _ r (c.toNat % 16)
      (hexVal_hexDigitChar _ (by omega)) (by omega)]
    have harith : 8224 + c.toNat % 16 = c.toNat := by omega
    rw [harith, Char.ofNat_toNat]
  · have hcons : escapeChar c ++ r = c :: r := by
      have hesc : escapeChar c = [c] := by
        simp [escapeChar, h1, h2, h3, h4, h5, h6, h7]
      simp [hesc]
    rw [hcons, parseStrBody_lit c r h1 h2 (fun h => h6 (Or.inl h))]

theorem parseStrBody_escStr : ∀ (s r : List Char),
    parseStrBody (escStr s ++ '"' :: r) = some (s, r) := by
  intro s
  induction s with
  | nil =>
    intro r
    have h : escStr [] = [] := by simp [escStr]
    rw [h, List.nil_append, parseStrBody.eq_def]
    simp
  | cons c cs ih =>
    intro r
    have hes : escStr (c :: cs) = escapeChar c ++ escStr cs := by simp [escStr]
    rw [hes, List.append_assoc, parseStrBody_escapeChar, ih]
    rfl

/-! ### Lemmas: the cache entry line round-trip -/

theorem stripLit_key (x : List Char) :
    stripLit jsonKeyLit (',' :: (['"', 'k', 'e', 'y', '"', ':', '"'] ++ x)) = some x :=
  stripLit_append jsonKeyLit x

theorem parseCacheLine_marshal (e : CacheEntry) :
    parseCacheLineChars (marshalEntryChars e) = some e := by
  have hcomma : isDigitChar ',' = false := by decide
  have h1 : marshalEntryChars e = jsonTsLit ++ (natToChars e.timestamp
      ++ (',' :: ("\"key\":\"".data ++ (escStr e.key.data
      ++ ('"' :: (jsonContentLit ++ (escStr e.content.data ++ ('"' :: ['\x7d'])))))))) := by
    simp [marshalEntryChars, jsonKeyLit, List.append_assoc]
  unfold parseCacheLineChars
  rw [h1]
  simp only [stripLit_append, Option.some_bind, hcomma, parseNatChars_natToChars,
    stripLit_key, parseStrBody_escStr]
  rfl


theorem trimChars_eq_self_of (a b : Char) (mid : List Char)
    (ha : goIsSpace a = false) (hb : goIsSpace b = false) :
    trimChars (a :: (mid ++ [b])) = a :: (mid ++ [b]) := by
  simp [trimChars, ha, hb, List.dropWhile_cons, List.reverse_cons, List.reverse_append]

theorem marshal_shape (e : CacheEntry) :
    marshalEntryChars e = '\x7b' :: (("\"timestamp\":".data ++ natToChars e.timestamp
      ++ jsonKeyLit ++ escStr e.key.data
      ++ '"' :: (jsonContentLit ++ escStr e.content.data ++ ['"'])) ++ ['\x7d']) := by
  simp [marshalEntryChars, jsonTsLit, List.append_assoc]

theorem trimChars_marshal (e : CacheEntry) :
    trimChars (marshalEntryChars e) = marshalEntryChars e := by
  rw [marshal_shape e]
  exact trimChars_eq_self_of _ _ _ (by decide) (by decide)

theorem hexDigitChar_ne_newline : ∀ m, m < 16 → ¬ hexDigitChar m = '\n' := by
  decide

theorem escapeChar_no_newline (c : Char) : '\n' ∉ escapeChar c := by
  unfold escapeChar
  split_ifs with h1 h2 h3 h4 h5 h6 h7
  · decide
  · decide
  · decide
  · decide
  · decide
  · have hlt : c.toNat < 256 := by
      rcases h6 with h | h | h | h
      · omega
      · subst h; decide
      · subst h; decide
      · subst h; decide
    intro hmem
    simp only [List.mem_cons, List.not_mem_nil, or_false] at hmem
    rcases hmem with h | h | h | h | h | h
    · exact absurd h (by decide)
    · exact absurd h (by decide)
    · exact absurd h (by decide)
    · exact absurd h (by decide)
    · exact hexDigitChar_ne_newline (c.toNat / 16) (by omega) h.symm
    · exact hexDigitChar_ne_newline (c.toNat % 16) (by omega) h.symm
  · intro hmem
    simp only [List.mem_cons, List.not_mem_nil, or_false] at hmem
    rcases hmem with h | h | h | h | h | h
    · exact absurd h (by decide)
    · exact absurd h (by decide)
    · exact absurd h (by decide)
    · exact absurd h (by decide)
    · exact absurd h (by decide)
    · exact hexDigitChar_ne_newline (c.toNat % 16) (by omega) h.symm
  · intro hmem
    simp only [List.mem_cons, List.not_mem_nil, or_false] at hmem
    exact h3 (hmem.symm)

theorem escStr_no_newline (s : List Char) : '\n' ∉ escStr s := by
  intro h
  unfold escStr at h
  rw [List.mem_flatten] at h
  obtain ⟨l, hl, hmem⟩ := h
  obtain ⟨c, _, rfl⟩ := List.mem_map.mp hl
  exact escapeChar_no_newline c hmem

theorem natToChars_no_newline (n : Nat) : '\n' ∉ natToChars n := by
  intro h
  have := natToChars_all_digits n _ h
  exact absurd this (by decide)

theorem marshal_no_newline (e : CacheEntry) : '\n' ∉ marshalEntryChars e := by
  unfold marshalEntryChars
  intro h
  simp only [List.mem_append, List.mem_cons, List.not_mem_nil, or_false] at h
  rcases h with (((h | h) | h) | h) | h | (h | h) | h | h
  · exact absurd h (by decide)
  · exact natToChars_no_newline _ h
  · exact absurd h (by decide)
  · exact escStr_no_newline _ h
  · exact absurd h (by decide)
  · exact absurd h (by decide)
  · exact escStr_no_newline _ h
  · exact absurd h (by decide)
  · exact absurd h (by decide)

theorem lineToEntry_marshal (e : CacheEntry) : lineToEntry (marshalEntryChars e) = some e := by
  have hne : marshalEntryChars e ≠ [] := by
    rw [marshal_shape e]
    simp
  unfold lineToEntry
  rw [trimChars_marshal]
  simp [hne, parseCacheLine_marshal]

/-! ### Lemmas: line splitting -/

theorem foldr_splitLinesF_ne_nil :
    ∀ (xs : List Char) (acc : List (List Char)), acc ≠ [] →
      xs.foldr splitLinesF acc ≠ [] := by
  intro xs
  induction xs with
  | nil => intro acc h; simpa using h
  | cons c xs ih =>
    intro acc h
    obtain ⟨a, as, hA⟩ := List.exists_cons_of_ne_nil (ih acc h)
    rw [List.foldr_cons, hA]
    unfold splitLinesF
    split_ifs <;> simp

theorem foldr_splitLinesF_tail :
    ∀ (xs : List Char) (l : List Char) (ls : List (List Char)),
      xs.foldr splitLinesF (l :: ls) = xs.foldr splitLinesF [l] ++ ls := by
  intro xs
  induction xs with
  | nil => intro l ls; rfl
  | cons c xs ih =>
    intro l ls
    rw [List.foldr_cons, List.foldr_cons, ih]
    obtain ⟨a, as, hA⟩ := List.exists_cons_of_ne_nil
      (foldr_splitLinesF_ne_nil xs [l] (by simp))
    rw [hA]
    unfold splitLinesF
    split_ifs <;> simp

theorem foldr_splitLinesF_no_newline :
    ∀ (m l : List Char) (ls : List (List Char)), '\n' ∉ m →
      m.foldr splitLinesF (l :: ls) = (m ++ l) :: ls := by
  intro m
  induction m with
  | nil => intro l ls _; rfl
  | cons c m ih =>
    intro l ls h
    have hc : ¬ c = '\n' := fun hc => h (by simp [hc])
    rw [List.foldr_cons, ih l ls (fun hm => h (by simp [hm]))]
    simp [splitLinesF, hc]

theorem splitLines_append_newline (s t : List Char) :
    splitLines (s ++ '\n' :: t) = splitLines s ++ splitLines t := by
  unfold splitLines
  rw [List.foldr_append]
  have h1 : ('\n' :: t).foldr splitLinesF [[]] = [] :: t.foldr splitLinesF [[]] := by
    rw [List.foldr_cons]
    unfold splitLinesF
    simp
  rw [h1, foldr_splitLinesF_tail]

theorem splitLines_no_newline (m : List Char) (h : '\n' ∉ m) : splitLines m = [m] := by
  unfold splitLines
  rw [foldr_splitLinesF_no_newline m [] [] h, List.append_nil]

theorem lineToEntry_nil : lineToEntry [] = none := rfl

theorem splitLines_entry_block (content m : List Char)
    (hc : content = [] ∨ content.getLast? = some '\n') (hm : '\n' ∉ m) :
    (splitLines (content ++ (m ++ ['\n']))).filterMap lineToEntry
      = (splitLines content).filterMap lineToEntry ++ (lineToEntry m).toList := by
  have hmn : splitLines (m ++ ['\n']) = [m, []] := by
    have h : m ++ ['\n'] = m ++ '\n' :: ([] : List Char) := rfl
    rw [h, splitLines_append_newline, splitLines_no_newline m hm]
    rfl
  rcases hc with rfl | hlast
  · rw [List.nil_append, hmn]
    cases hE : lineToEntry m <;>
      simp [List.filterMap_cons, hE, lineToEntry_nil, splitLines]
  · have hne : content ≠ [] := by
      intro h
      rw [h] at hlast
      cases hlast
    obtain ⟨s, rfl⟩ : ∃ s, content = s ++ ['\n'] := by
      refine ⟨content.dropLast, ?_⟩
      have h1 := List.dropLast_append_getLast hne
      have h2 : content.getLast hne = '\n' := by
        have h3 := List.getLast?_eq_getLast content hne
        rw [h3] at hlast
        exact Option.some.inj hlast
      rw [h2] at h1
      exact h1.symm
    have hassoc : (s ++ ['\n']) ++ (m ++ ['\n']) = s ++ '\n' :: (m ++ ['\n']) := by simp
    have hs : s ++ ['\n'] = s ++ '\n' :: ([] : List Char) := rfl
    rw [hassoc, splitLines_append_newline, hmn, hs, splitLines_append_newline]
    cases hE : lineToEntry m <;>
      simp [List.filterMap_append, List.filterMap_cons, hE, lineToEntry_nil, splitLines]

/-! ### Lemmas: the scan keeps the last match -/

theorem getLast?_cons_or (a : CacheEntry) (l : List CacheEntry) :
    (a :: l).getLast? = l.getLast?.or (some a) := by
  cases l with
  | nil => rfl
  | cons b t =>
    rw [List.getLast?_cons_cons]
    obtain ⟨x, hx⟩ := Option.isSome_iff_exists.mp
      (List.getLast?_isSome.mpr (by simp : (b :: t) ≠ []))
    rw [hx]
    rfl

theorem foldl_scan_lastMatch (key : String) :
    ∀ (lines : List (List Char)) (acc : Option CacheEntry),
      lines.foldl
        (fun acc line =>
          match lineToEntry line with
          | none => acc
          | some entry => if entry.key = key then some entry else acc)
        acc
      = (((lines.filterMap lineToEntry).filter (fun e => e.key = key)).getLast?).or acc := by
  intro lines
  induction lines with
  | nil => intro acc; rfl
  | cons line ls ih =>
    intro acc
    rw [List.foldl_cons, ih]
    cases hE : lineToEntry line with
    | none => simp [List.filterMap_cons, hE]
    | some e =>
      by_cases hk : e.key = key
      · simp only [List.filterMap_cons, hE]
        rw [List.filter_cons_of_pos (by simp [hk]), getLast?_cons_or, Option.or_assoc,
          if_pos hk]
        rfl
      · simp [List.filterMap_cons, hE, List.filter_cons, hk]

theorem getLatestEntry_eq_lastMatch (file : Option (List Char)) (key : String) :
    getLatestEntry file key
      = ((entriesOf file).filter (fun e => e.key = key)).getLast? := by
  cases file with
  | none => rfl
  | some content =>
    have h1 : getLatestEntry (some content) key
        = (splitLines content).foldl
            (fun acc line =>
              match lineToEntry line with
              | none => acc
              | some entry => if entry.key = key then some entry else acc)
            none := rfl
    have h2 : entriesOf (some content) = (splitLines content).filterMap lineToEntry := rfl
    rw [h1, h2, foldl_scan_lastMatch, Option.or_none]

/-! ### Lemmas: appending an entry -/

theorem entriesOf_appendEntry (file : Option (List Char)) (e : CacheEntry)
    (hf : NewlineTerminated file) :
    entriesOf (some (appendEntry file e)) = entriesOf file ++ [e] := by
  cases file with
  | none =>
    have h1 : appendEntry none e = [] ++ (marshalEntryChars e ++ ['\n']) := by
      simp [appendEntry]
    have h2 : entriesOf (some (appendEntry none e))
        = (splitLines ([] ++ (marshalEntryChars e ++ ['\n']))).filterMap lineToEntry := by
      rw [← h1]; rfl
    rw [h2, splitLines_entry_block [] (marshalEntryChars e) (Or.inl rfl)
      (marshal_no_newline e), lineToEntry_marshal]
    rfl
  | some content =>
    have h1 : appendEntry (some content) e = content ++ (marshalEntryChars e ++ ['\n']) := by
      simp [appendEntry]
    have h2 : entriesOf (some (appendEntry (some content) e))
        = (splitLines (content ++ (marshalEntryChars e ++ ['\n']))).filterMap lineToEntry := by
      rw [← h1]; rfl
    rw [h2, splitLines_entry_block content (marshalEntryChars e) hf
      (marshal_no_newline e), lineToEntry_marshal]
    rfl

theorem getLatestEntry_appendEntry (file : Option (List Char)) (e : CacheEntry)
    (hf : NewlineTerminated file) :
    getLatestEntry (some (appendEntry file e)) e.key = some e := by
  rw [getLatestEntry_eq_lastMatch, entriesOf_appendEntry file e hf, List.filter_append]
  simp

theorem appendEntry_newline_terminated (file : Option (List Char)) (e : CacheEntry) :
    NewlineTerminated (some (appendEntry file e)) := by
  unfold NewlineTerminated appendEntry
  right
  exact List.getLast?_concat _

theorem cacheGet_after_set (file : Option (List Char)) (k v : String)
    (t now ttl : Nat) (hf : NewlineTerminated file) :
    cacheGet ttl now (some (cacheSet t file k v)) k
      = if now - t ≤ ttl then (v, true) else ("", false) := by
  unfold cacheSet cacheGet
  rw [show k = (CacheEntry.mk t k v).key from rfl, getLatestEntry_appendEntry file ⟨t, k, v⟩ hf]
  unfold isValidEntry
  split_ifs with h1 <;> simp_all

/-! ### Lemmas: rebuilding only the well-formed lines -/

theorem splitLines_mem_no_newline :
    ∀ (s : List Char), ∀ l ∈ splitLines s, '\n' ∉ l := by
  intro s
  induction s with
  | nil =>
    intro l hl
    have : l = [] := by simpa [splitLines] using hl
    simp [this]
  | cons c s ih =>
    intro l hl
    have hsplit : splitLines (c :: s) = splitLinesF c (splitLines s) := rfl
    rw [hsplit] at hl
    by_cases hc : c = '\n'
    · rw [splitLinesF.eq_def, if_pos hc] at hl
      rcases List.mem_cons.mp hl with h | h
      · simp [h]
      · exact ih l h
    · obtain ⟨a, as, hA⟩ := List.exists_cons_of_ne_nil
        (foldr_splitLinesF_ne_nil s [[]] (by simp))
      have hA' : splitLines s = a :: as := hA
      rw [splitLinesF.eq_def, if_neg hc, hA'] at hl
      rcases List.mem_cons.mp hl with h | h
      · subst h
        intro hmem
        rcases List.mem_cons.mp hmem with h | h
        · exact hc h.symm
        · exact ih a (by rw [hA']; simp) h
      · exact ih l (by rw [hA']; simp [h])

theorem splitLines_flatten_lines :
    ∀ (ls : List (List Char)), (∀ l ∈ ls, '\n' ∉ l) →
      splitLines ((ls.map (fun l => l ++ ['\n'])).flatten) = ls ++ [[]] := by
  intro ls
  induction ls with
  | nil => intro _; rfl
  | cons l ls ih =>
    intro h
    have h1 : ((l :: ls).map (fun l => l ++ ['\n'])).flatten
        = l ++ '\n' :: (ls.map (fun l => l ++ ['\n'])).flatten := by
      simp
    rw [h1, splitLines_append_newline, splitLines_no_newline l (h l (by simp)),
      ih (fun x hx => h x (by simp [hx]))]
    rfl

theorem filterMap_filter_isSome (f : List Char → Option CacheEntry) :
    ∀ (l : List (List Char)),
      (l.filter (fun x => (f x).isSome)).filterMap f = l.filterMap f := by
  intro l
  induction l with
  | nil => rfl
  | cons x xs ih =>
    cases hx : f x with
    | none => simp [List.filter_cons, List.filterMap_cons, hx, ih]
    | some b => simp [List.filter_cons, List.filterMap_cons, hx, ih]

theorem getLatestEntry_rebuild (content : List Char) (key : String) :
    getLatestEntry (some (rebuildWellFormed content)) key
      = getLatestEntry (some content) key := by
  rw [getLatestEntry_eq_lastMatch, getLatestEntry_eq_lastMatch]
  have hkept : ∀ l ∈ (splitLines content).filter (fun l => (lineToEntry l).isSome),
      '\n' ∉ l := by
    intro l hl
    exact splitLines_mem_no_newline content l (List.mem_of_mem_filter hl)
  have h1 : entriesOf (some (rebuildWellFormed content))
      = (splitLines (rebuildWellFormed content)).filterMap lineToEntry := rfl
  have h2 : entriesOf (some content) = (splitLines content).filterMap lineToEntry := rfl
  rw [h1, h2]
  unfold rebuildWellFormed
  rw [splitLines_flatten_lines _ hkept, List.filterMap_append,
    filterMap_filter_isSome]
  simp [lineToEntry_nil]

/-! ### Claims about the cache store -/

/-- Claim C1: `Cache.Get` is last-write-wins by file position.  For every
key the scan over all lines keeps, among the well-formed entries whose key
matches, the one at the greatest line position; in particular after
`Set(k, v1)` then `Set(k, v2)` on a single-writer store, `Get(k)` within
the TTL returns `(v2, true)` (the claim's instance is `v1 = "old"`,
`v2 = "new"`). -/
theorem C1_cache_get_last_write_wins :
    (∀ (file : Option (List Char)) (key : String),
      getLatestEntry file key
        = ((entriesOf file).filter (fun e => e.key = key)).getLast?)
    ∧ ∀ (file : Option (List Char)) (k v1 v2 : String) (t1 t2 now ttl : Nat),
        now - t2 ≤ ttl →
        cacheGet ttl now
          (some (cacheSet t2 (some (cacheSet t1 file k v1)) k v2)) k = (v2, true) := by
  constructor
  · exact getLatestEntry_eq_lastMatch
  · intro file k v1 v2 t1 t2 now ttl h
    rw [cacheGet_after_set (some (cacheSet t1 file k v1)) k v2 t2 now ttl
      (appendEntry_newline_terminated file ⟨t1, k, v1⟩), if_pos h]

/-- Witness for C1 at a concrete input. -/
theorem C1_cache_get_last_write_wins_witness :
    cacheGet 5 2 (some (cacheSet 1 (some (cacheSet 0 none "k" "old")) "k" "new")) "k"
      = ("new", true) :=
  C1_cache_get_last_write_wins.2 none "k" "old" "new" 0 1 2 5 (by decide)

/-- Claim C2: TTL expiry.  `Get` after `Set` returns the value while the
entry's age is within the TTL, and `(_, false)` once it is older than
`now - TTL`; the expired entry is only ignored — it is still among the
file's entries. -/
theorem C2_cache_ttl_expiry :
    ∀ (file : Option (List Char)) (k v : String) (t now ttl : Nat),
      NewlineTerminated file →
      (now - t ≤ ttl → cacheGet ttl now (some (cacheSet t file k v)) k = (v, true))
      ∧ (ttl < now - t →
          cacheGet ttl now (some (cacheSet t file k v)) k = ("", false)
          ∧ CacheEntry.mk t k v ∈ entriesOf (some (cacheSet t file k v))) := by
  intro file k v t now ttl hf
  constructor
  · intro h
    rw [cacheGet_after_set file k v t now ttl hf, if_pos h]
  · intro h
    refine ⟨?_, ?_⟩
    · rw [cacheGet_after_set file k v t now ttl hf, if_neg (by omega)]
    · rw [show cacheSet t file k v = appendEntry file ⟨t, k, v⟩ from rfl,
        entriesOf_appendEntry file ⟨t, k, v⟩ hf]
      simp

/-- Witness for C2 at concrete inputs (both the fresh and the expired
case). -/
theorem C2_cache_ttl_expiry_witness :
    cacheGet 10 7 (some (cacheSet 5 none "k" "v")) "k" = ("v", true)
    ∧ cacheGet 1 7 (some (cacheSet 5 none "k" "v")) "k" = ("", false) :=
  ⟨(C2_cache_ttl_expiry none "k" "v" 5 7 10 trivial).1 (by decide),
   ((C2_cache_ttl_expiry none "k" "v" 5 7 1 trivial).2 (by decide)).1⟩

/-- Claim C9: `Get` robustness.  An absent file, or a key with no matching
well-formed entry, yields `("", false)`; and the scan's result over a file
equals its result over the file rebuilt from only the well-formed entry
lines (blank and malformed lines are skipped). -/
theorem C9_cache_get_robust :
    (∀ (ttl now : Nat) (key : String), cacheGet ttl now none key = ("", false))
    ∧ (∀ (ttl now : Nat) (content : List Char) (key : String),
        (entriesOf (some content)).filter (fun e => e.key = key) = [] →
        cacheGet ttl now (some content) key = ("", false))
    ∧ ∀ (content : List Char) (key : String),
        getLatestEntry (some content) key
          = getLatestEntry (some (rebuildWellFormed content)) key := by
  refine ⟨?_, ?_, ?_⟩
  · intro ttl now key
    rfl
  · intro ttl now content key h
    unfold cacheGet
    rw [getLatestEntry_eq_lastMatch, h]
    rfl
  · intro content key
    exact (getLatestEntry_rebuild content key).symm

/-- Witness for C9 at a concrete input whose content is not a cache
entry. -/
theorem C9_cache_get_robust_witness :
    cacheGet 5 0 (some "garbage".data) "k" = ("", false) :=
  C9_cache_get_robust.2.1 5 0 "garbage".data "k" (by decide)

/-- Claim C10: `Set`/`Get` round-trip for every value string (newlines,
quotes and control characters included): the entry is JSON-encoded onto a
single line (no raw newline in the marshalled form), a `Get` of the key
within the TTL returns exactly the value, and the appended line leaves
every neighboring entry intact. -/
theorem C10_cache_roundtrip :
    ∀ (file : Option (List Char)) (k v : String) (t now ttl : Nat),
      NewlineTerminated file → now - t ≤ ttl →
      cacheGet ttl now (some (cacheSet t file k v)) k = (v, true)
      ∧ entriesOf (some (cacheSet t file k v)) = entriesOf file ++ [⟨t, k, v⟩]
      ∧ '\n' ∉ marshalEntryChars ⟨t, k, v⟩ := by
  intro file k v t now ttl hf h
  refine ⟨?_, ?_, marshal_no_newline _⟩
  · rw [cacheGet_after_set file k v t now ttl hf, if_pos h]
  · exact entriesOf_appendEntry file ⟨t, k, v⟩ hf

/-- Witness for C10 at a value containing a newline, a quote and a
backslash. -/
theorem C10_cache_roundtrip_witness :
    cacheGet 10 7 (some (cacheSet 5 none "k" "a\nb\"c\\d")) "k" = ("a\nb\"c\\d", true) :=
  (C10_cache_roundtrip none "k" "a\nb\"c\\d" 5 7 10 trivial (by decide)).1

/-! ### Claims about the notification gateway -/

/-- Claim C3: the gateway returns `-1` when no credential token is
configured, and when the cache yields no usable hit and the external fetch
fails; on such a failure the cache file is left unchanged. -/
theorem C3_notification_failure_sentinel :
    (∀ (now : Nat) (file : Option (List Char)) (fetch : Option (List Notification)),
      getNotificationCount "" now file fetch = (-1, file))
    ∧ ∀ (token : String) (now : Nat) (file : Option (List Char)),
        token ≠ "" →
        ((cacheGet notificationTTL now file githubCacheKey).2 = false
          ∨ parseIntJSON (cacheGet notificationTTL now file githubCacheKey).1.data = none) →
        getNotificationCount token now file none = (-1, file) := by
  constructor
  · intro now file fetch
    rfl
  · intro token now file htok hmiss
    unfold getNotificationCount
    rw [if_neg htok]
    rcases hmiss with h | h
    · simp [h]
    · simp [h]

/-- Witness for C3: no token, and a failing fetch on a cold cache. -/
theorem C3_notification_failure_sentinel_witness :
    getNotificationCount "" 0 none none = (-1, none)
    ∧ getNotificationCount "tok" 0 none none = (-1, none) :=
  ⟨C3_notification_failure_sentinel.1 0 none none,
   C3_notification_failure_sentinel.2 "tok" 0 none (by decide) (Or.inl (by decide))⟩

/-- Claim C4: read-through on hit.  When the fixed cache key yields a
valid cached payload that parses as an integer, the gateway returns that
integer with the cache file unchanged, and the result is the same for
every possible fetch outcome — no fetch is consulted. -/
theorem C4_notification_cache_hit :
    ∀ (token : String) (now : Nat) (file : Option (List Char)) (n : Int),
      token ≠ "" →
      (cacheGet notificationTTL now file githubCacheKey).2 = true →
      parseIntJSON (cacheGet notificationTTL now file githubCacheKey).1.data = some n →
      ∀ (fetch : Option (List Notification)),
        getNotificationCount token now file fetch = (n, file) := by
  intro token now file n htok hhit hparse fetch
  unfold getNotificationCount
  rw [if_neg htok]
  simp [hhit, hparse]

/-- Witness for C4: a cache hit with payload `7` is returned as `7` for
both a failing and a succeeding fetch collaborator. -/
theorem C4_notification_cache_hit_witness :
    getNotificationCount "tok" 0 (some (cacheSet 0 none "github_notifications" "7")) none
      = (7, some (cacheSet 0 none "github_notifications" "7")) :=
  C4_notification_cache_hit "tok" 0 (some (cacheSet 0 none "github_notifications" "7")) 7
    (by decide) (by decide) (by decide) none

/-! ### Lemmas: the porcelain classification decomposes into deltas -/

theorem addCounts_zero (c : GitCounts) : addCounts c zeroCounts = c := by
  cases c
  simp [addCounts, zeroCounts]

theorem addCounts_assoc (a b c : GitCounts) :
    addCounts (addCounts a b) c = addCounts a (addCounts b c) := by
  cases a; cases b; cases c
  simp [addCounts, Nat.add_assoc]

theorem stage_step (c : GitCounts) (s : Char) :
    (if s ≠ ' ' ∧ s ≠ '?' then
      if s = 'A' then { c with stagedAdded := c.stagedAdded + 1 }
      else if s = 'D' then { c with stagedDeleted := c.stagedDeleted + 1 }
      else if s = 'M' ∨ s = 'R' ∨ s = 'C' then
        { c with stagedModified := c.stagedModified + 1 }
      else c
    else c) = addCounts c (stageDelta s) := by
  by_cases hg : s ≠ ' ' ∧ s ≠ '?'
  · rw [if_pos hg]
    unfold stageDelta
    split_ifs <;> (cases c; simp [addCounts, zeroCounts])
  · rw [if_neg hg]
    have hs : s = ' ' ∨ s = '?' := by
      by_cases h1 : s = ' '
      · exact Or.inl h1
      by_cases h2 : s = '?'
      · exact Or.inr h2
      exact absurd ⟨h1, h2⟩ hg
    unfold stageDelta
    rcases hs with rfl | rfl
    · rw [if_neg (by decide), if_neg (by decide), if_neg (by decide)]
      cases c; simp [addCounts, zeroCounts]
    · rw [if_neg (by decide), if_neg (by decide), if_neg (by decide)]
      cases c; simp [addCounts, zeroCounts]

theorem work_step (c : GitCounts) (w : Char) :
    (if w ≠ ' ' ∧ w ≠ '?' then
      if w = 'M' then { c with unstagedModified := c.unstagedModified + 1 }
      else if w = 'D' then { c with unstagedDeleted := c.unstagedDeleted + 1 }
      else c
    else c) = addCounts c (workDelta w) := by
  by_cases hg : w ≠ ' ' ∧ w ≠ '?'
  · rw [if_pos hg]
    unfold workDelta
    split_ifs <;> (cases c; simp [addCounts, zeroCounts])
  · rw [if_neg hg]
    have hs : w = ' ' ∨ w = '?' := by
      by_cases h1 : w = ' '
      · exact Or.inl h1
      by_cases h2 : w = '?'
      · exact Or.inr h2
      exact absurd ⟨h1, h2⟩ hg
    unfold workDelta
    rcases hs with rfl | rfl
    · rw [if_neg (by decide), if_neg (by decide)]
      cases c; simp [addCounts, zeroCounts]
    · rw [if_neg (by decide), if_neg (by decide)]
      cases c; simp [addCounts, zeroCounts]

theorem untracked_step (c : GitCounts) (s w : Char) :
    (if s = '?' ∧ w = '?' then { c with unstagedAdded := c.unstagedAdded + 1 }
     else c) = addCounts c (untrackedDelta s w) := by
  unfold untrackedDelta
  split_ifs <;> (cases c; simp [addCounts, zeroCounts])

/-! ### Claim about the porcelain classification -/

/-- Claim C7: porcelain status classification.  Every status line of at
least two characters contributes, independently per column, exactly the
spec's delta: stage column `A` only to stagedAdded, `D` only to
stagedDeleted, `M`/`R`/`C` only to stagedModified, any other stage
character nothing; worktree column `M` only to unstagedModified, `D` only
to unstagedDeleted (worktree `A` nothing); a `??` line only to
unstagedAdded and never to a staged counter; shorter lines contribute
nothing. -/
theorem C7_porcelain_classification :
    ∀ (c : GitCounts) (line : List Char),
      classifyStatusLine c line = addCounts c (lineDelta line) := by
  intro c line
  rcases line with _ | ⟨s, _ | ⟨w, rest⟩⟩
  · exact (addCounts_zero c).symm
  · exact (addCounts_zero c).symm
  · simp only [classifyStatusLine, lineDelta]
    rw [stage_step, work_step, untracked_step, addCounts_assoc, addCounts_assoc,
      addCounts_assoc]

/-! ### Claim about the diff-stat summary parse -/

/-- Claim C8: diff-stat summary-line parsing.  The two spec examples parse
to the stated triples, and a summary line from which a clause is absent
(no `file`, `insertion` or `deletion` substring) yields zero for that
clause rather than an error. -/
theorem C8_shortstat_parse :
    parseShortstat "2 files changed, 150 insertions(+), 50 deletions(-)".data
        = ⟨2, 150, 50⟩
    ∧ parseShortstat "1 file changed, 3 deletions(-)".data = ⟨1, 0, 3⟩
    ∧ (∀ s : List Char, containsSeq "file".data s = false →
        (parseShortstat s).filesChanged = 0)
    ∧ (∀ s : List Char, containsSeq "insertion".data s = false →
        (parseShortstat s).insertions = 0)
    ∧ (∀ s : List Char, containsSeq "deletion".data s = false →
        (parseShortstat s).deletions = 0) := by
  refine ⟨by decide, by decide, ?_, ?_, ?_⟩ <;>
    · intro s h
      simp [parseShortstat, h]

/-- Witness for C8 on a line containing none of the three clauses. -/
theorem C8_shortstat_parse_witness :
    (parseShortstat "nothing here".data).filesChanged = 0
    ∧ (parseShortstat "nothing here".data).insertions = 0
    ∧ (parseShortstat "nothing here".data).deletions = 0 :=
  ⟨C8_shortstat_parse.2.2.1 "nothing here".data (by decide),
   C8_shortstat_parse.2.2.2.1 "nothing here".data (by decide),
   C8_shortstat_parse.2.2.2.2 "nothing here".data (by decide)⟩

/-! ### Claim about path shortening -/

/-- Counterexample to claim C6 as stated: for
`current = project = "/Users/john/src"` with `home = "/Users/john"` the
result is `"~/src"`, not `current` unshortened — the home abbreviation
still applies when `current` equals the project directory. -/
theorem C6_counterexample :
    shortenPath "/Users/john/src" "/Users/john" "/Users/john/src" = "~/src"
    ∧ shortenPath "/Users/john/src" "/Users/john" "/Users/john/src" ≠ "/Users/john/src" := by
  constructor
  · decide
  · decide

/-- Claim C6 (amended): the two shortening examples hold, and whenever
`current = project` the project rule does not apply, so the result is
`current` with only the home abbreviation applied (`current` unchanged
when it is not strictly under the home directory). -/
theorem C6_shorten_path :
    shortenPath "/Users/john/src" "/Users/john" "" = "~/src"
    ∧ shortenPath "/work/proj/sub" "/Users/john" "/work/proj" = "sub"
    ∧ ∀ (cur home proj : String), cur = proj →
        shortenPath cur home proj = homeShorten cur home := by
  refine ⟨by decide, by decide, ?_⟩
  intro cur home proj h
  subst h
  unfold shortenPath homeShorten
  simp

/-- Witness for C6 (amended) at a concrete input with
`current = project`. -/
theorem C6_shorten_path_witness :
    shortenPath "/a/b" "/a" "/a/b" = homeShorten "/a/b" "/a" :=
  C6_shorten_path.2.2 "/a/b" "/a" "/a/b" rfl

/-! ### Claim about the output segment order -/

/-- Counterexample to claim C5 as stated: with a branch, one staged and
one unstaged change, and one notification, the rendered line is not the
composition with the notification badge first. -/
theorem C5_counterexample :
    renderMain "main".data ⟨0, 1, 0, 0, 1, 0⟩ [] [] true 1 "p".data
      ≠ claimOrderCompose "main".data ⟨0, 1, 0, 0, 1, 0⟩ [] [] true 1 "p".data := by
  decide

/-- Claim C5 (amended): the rendered line is composed of
optionally-colored segments in the order branch, staged-summary,
unstaged-summary, notification-badge, path — the badge comes after the
summaries, not first — with absent segments omitted entirely; the
summaries and the space before the path appear only when a branch is
present. -/
theorem C5_render_order :
    ∀ (branch : List Char) (c : GitCounts) (sStats uStats : List Char)
      (showNoti : Bool) (count : Int) (pwd : List Char),
      renderMain branch c sStats uStats showNoti count pwd
        = codeOrderCompose branch c sStats uStats showNoti count pwd := by
  intro branch c sStats uStats showNoti count pwd
  unfold renderMain renderStatusLine codeOrderCompose segBranch segStaged segUnstaged
    formatGitStatus
  by_cases hb : branch = []
  · simp [hb]
  · by_cases hs : hasStaged c <;> by_cases hu : hasUnstaged c <;>
      simp [hb, hs, hu, List.intercalate, List.intersperse, List.append_assoc]
